import Mathlib

/-!
Shallow embedding of the resumable batch-classification pipeline of
`src/anidf/main.py` (Animal Species Identifier).

External collaborators (filesystem walk, EXIF reader, scoring model, wall
clock, checkpoint-file writes) are modelled as oracles bundled in `Env`;
exceptions thrown by fallible collaborator calls are modelled with
`Except`/`Option` results.  The shared mutable `stop_flag` read by the
worker loop is modelled as a function from poll index to the value read at
that poll; `Processor` state is passed explicitly.  Machine floats
(confidence scores and thresholds) are modelled as rationals: the code
only compares them with `<` and never does arithmetic on them.
-/

namespace Anidf

/-- One classification result, the shape of the dicts produced by the
classifier pipeline and by the fallback literal
`{"label": "Unidentified", "score": 0.0}`.  `result.get("label")` /
`result.get("score", 0.0)` may find the key absent, hence `Option`. -/
structure ClassResult where
  label : Option String
  score : Option Rat
deriving DecidableEq

/-- The dynamic shapes a single classifier return item can have before the
normalisation in `_classify_batch`: a (possibly empty) Python list, a
dict, or anything else. -/
inductive RawItem where
  | list (items : List ClassResult)
  | dict (r : ClassResult)
  | other
deriving DecidableEq

/-- The scoring model (`self.classifier`): called either on a whole batch
of paths or on a single path; either call may raise. -/
structure Service where
  batchCall : List String → Except Unit (List RawItem)
  itemCall : String → Except Unit RawItem

/-- A row of `self.records` as built by `_record_from_path_and_result`:
the six exported fields plus the internal `"Path"` key. -/
structure Record where
  animalFolder : Option String
  block : Option String
  cameraId : Option String
  animalName : String
  date : Option String
  time : Option String
  path : String
deriving DecidableEq

/-- A row of the export projection built in `_finalize_processing` (the
same fields minus the internal `"Path"`). -/
structure ExportRow where
  animalFolder : Option String
  block : Option String
  cameraId : Option String
  animalName : String
  date : Option String
  time : Option String
deriving DecidableEq

/-- The checkpoint payload written by `_save_progress`
(`meta` + `records` + `processed_paths`); `savedAt` stands for the
`datetime.now().isoformat` timestamp. -/
structure Payload where
  rootFolder : String
  batchSize : Nat
  confThreshold : Rat
  savedAt : Nat
  records : List Record
  processedPaths : Finset String
deriving DecidableEq

/-- Externally observable effects of a run: a persisted checkpoint, a
failed (logged) checkpoint write, or an Excel export of projected rows. -/
inductive Event where
  | saved (cp : Payload)
  | saveFailed
  | exported (rows : List ExportRow)
deriving DecidableEq

/-- The mutable fields of `Processor` (minus the Tk app handle):
`stop_flag`, `records`, `processed_paths`, the three parameters, and
whether `self.classifier` is loaded (non-`None`). -/
structure ProcState where
  stopFlag : Bool
  records : List Record
  processedPaths : Finset String
  rootFolder : String
  batchSize : Nat
  confThreshold : Rat
  modelLoaded : Bool
deriving DecidableEq

/-- The external world: `walkOf root` is the `os.walk(root)` listing as
(directory, file names) pairs; `svc` the classifier; `exifDateTime p` the
raw EXIF DateTime string of image `p` when readable; `modelOk` whether
`pipeline(...)` loads; `mkdirOk n` whether `safe_makedirs(OUTPUT_DIR)`
succeeds at the n-th checkpoint-save attempt (it fails, raising, when
the output directory cannot be created — e.g. a regular file occupies
its path or its parent is read-only); `clock n` the timestamp at the
n-th save attempt; `writeOk n` whether the n-th checkpoint file write
succeeds. -/
structure Env where
  walkOf : String → List (String × List String)
  svc : Service
  exifDateTime : String → Option String
  modelOk : Bool
  mkdirOk : Nat → Bool
  clock : Nat → Nat
  writeOk : Nat → Bool

/-! ## String primitives

Character-list implementations of the Python string methods the program
uses (`split` with an explicit one-character separator, `replace`,
`strip`, `lower`, `startswith`, `endswith`).  They are written by
structural recursion so that concrete runs evaluate inside the kernel. -/

/-- Python `s.split(sep)` for a one-character separator: consecutive
separators produce empty segments, the empty string splits to `[""]`. -/
def splitOnCharAux (sep : Char) : List Char → List Char → List (List Char)
  | [], acc => [acc.reverse]
  | c :: cs, acc =>
    if c = sep then acc.reverse :: splitOnCharAux sep cs []
    else splitOnCharAux sep cs (c :: acc)

def splitOnChar (sep : Char) (l : List Char) : List (List Char) :=
  splitOnCharAux sep l []

/-- The ASCII whitespace characters stripped by Python `str.strip()`. -/
def isStripChar (c : Char) : Bool :=
  c = ' ' || c = '\t' || c = '\n' || c = '\x0d' || c = '\x0b' || c = '\x0c'

/-- Python `str.strip()`: drop leading and trailing whitespace. -/
def pyStrip (l : List Char) : List Char :=
  ((l.dropWhile isStripChar).reverse.dropWhile isStripChar).reverse

/-- Python `s.startswith(p)`. -/
def strStartsWith (s p : String) : Bool := p.data.isPrefixOf s.data

/-- Python `s.endswith(p)`. -/
def strEndsWith (s p : String) : Bool := p.data.isSuffixOf s.data

/-- ASCII lowercase of a string (`str.lower` on the ASCII inputs the
program deals with). -/
def lowerStr (s : String) : String := String.mk (s.data.map Char.toLower)

/-! ## Pure helpers (`extract_metadata`, `parse_path_parts`,
`build_hyperlink_for_animal`) -/

/-- `extract_metadata`: from the raw EXIF DateTime value (absent on any
read failure), split on a single space; a two-part value yields
`Date = parts[0].replace(":", "-")` and `Time = parts[1]`. -/
def extractMetadata (raw : Option String) : Option String × Option String :=
  match raw with
  | none => (none, none)
  | some v =>
    match splitOnChar ' ' v.data with
    | [d, t] =>
      (some (String.mk (d.map fun c => if c = ':' then '-' else c)),
       some (String.mk t))
    | _ => (none, none)

/-- `parse_path_parts`: split the path on the separator and read the
components at offsets -2, -4, -3 (animal folder, block, camera id),
absent when the path is too shallow.  `os.sep` is `"/"` here. -/
def parsePathParts (imgPath : String) : Option String × Option String × Option String :=
  let parts := (splitOnChar '/' imgPath.data).map String.mk
  (if 2 ≤ parts.length then parts.get? (parts.length - 2) else none,
   if 4 ≤ parts.length then parts.get? (parts.length - 4) else none,
   if 3 ≤ parts.length then parts.get? (parts.length - 3) else none)

/-- UTF-8 bytes of one character, as the codepoint arithmetic of the
standard encoding. -/
def utf8Bytes (c : Char) : List Nat :=
  let n := c.toNat
  if n < 0x80 then [n]
  else if n < 0x800 then [0xC0 + n / 0x40, 0x80 + n % 0x40]
  else if n < 0x10000 then
    [0xE0 + n / 0x1000, 0x80 + (n / 0x40) % 0x40, 0x80 + n % 0x40]
  else
    [0xF0 + n / 0x40000, 0x80 + (n / 0x1000) % 0x40,
     0x80 + (n / 0x40) % 0x40, 0x80 + n % 0x40]

/-- Bytes `urllib.parse.quote_plus` leaves unencoded: ASCII letters,
digits, `_`, `.`, `-`, `~`. -/
def isUrlSafeByte (b : Nat) : Bool :=
  (65 ≤ b && b ≤ 90) || (97 ≤ b && b ≤ 122) || (48 ≤ b && b ≤ 57) ||
    b = 95 || b = 46 || b = 45 || b = 126

/-- Uppercase hex digit for a nibble. -/
def hexDigitChar (n : Nat) : Char :=
  if n < 10 then Char.ofNat (48 + n) else Char.ofNat (55 + n)

/-- `quote_plus` treatment of one UTF-8 byte: safe bytes kept, space to
`+`, everything else percent-encoded in uppercase hex. -/
def quoteByte (b : Nat) : String :=
  if isUrlSafeByte b then String.mk [Char.ofNat b]
  else if b = 32 then "+"
  else String.mk ['%', hexDigitChar (b / 16), hexDigitChar (b % 16)]

/-- `urllib.parse.quote_plus`: encode to UTF-8 bytes, then quote each
byte. -/
def quotePlus (s : String) : String :=
  String.join ((s.data.flatMap utf8Bytes).map quoteByte)

/-- `build_hyperlink_for_animal`: empty name defaults to
`"Unidentified"`; the search query is the quote-plus encoding of the
label, or of the fixed string `"wildlife+image+unidentified"` when the
label lowercases to `"unidentified"`; the result is an Excel HYPERLINK
formula with the raw label as display text. -/
def buildHyperlinkForAnimal (name : String) : String :=
  let label := if name = "" then "Unidentified" else name
  let query :=
    quotePlus (if lowerStr label ≠ "unidentified" then label
               else "wildlife+image+unidentified")
  let url := "https://www.google.com/search?q=" ++ query
  "=HYPERLINK(" ++ "\"" ++ url ++ "\", \"" ++ label ++ "\")"

/-! ## Record building (`_record_from_path_and_result`) -/

/-- `result.get("label") or "Unidentified"`: Python `or` falls through on
a missing key and on the falsy empty string. -/
def labelOrUnidentified (label : Option String) : String :=
  match label with
  | some s => if s = "" then "Unidentified" else s
  | none => "Unidentified"

/-- The animal-name resolution of `_record_from_path_and_result`: first
comma-separated segment of the (defaulted) label, whitespace-trimmed,
overridden with `"Unidentified"` when the score is strictly below the
threshold. -/
def resolveAnimalName (result : ClassResult) (confThreshold : Rat) : String :=
  let label := labelOrUnidentified result.label
  let score := result.score.getD 0
  let animalName := String.mk (pyStrip ((splitOnChar ',' label.data).headD []))
  if score < confThreshold then "Unidentified" else animalName

/-- `_record_from_path_and_result`: combine the resolved name (wrapped in
the hyperlink formula), EXIF metadata and path-derived fields into one
record. -/
def recordFromPathAndResult (env : Env) (confThreshold : Rat)
    (imgPath : String) (result : ClassResult) : Record :=
  let animalName := resolveAnimalName result confThreshold
  let meta := extractMetadata (env.exifDateTime imgPath)
  let pp := parsePathParts imgPath
  { animalFolder := pp.1
    block := pp.2.1
    cameraId := pp.2.2
    animalName := buildHyperlinkForAnimal animalName
    date := meta.1
    time := meta.2
    path := imgPath }

/-! ## Scanning (`_scan_all_images`) -/

/-- `f.lower().endswith((".jpg", ".jpeg", ".png"))`. -/
def isImageName (f : String) : Bool :=
  strEndsWith (lowerStr f) ".jpg" || strEndsWith (lowerStr f) ".jpeg" ||
    strEndsWith (lowerStr f) ".png"

/-- The candidate paths contributed by one walk entry: skip names
starting with `"._"`, keep image extensions, join with the directory,
drop paths already processed. -/
def scanDir (processed : Finset String) (dir : String) (files : List String) :
    List String :=
  files.filterMap fun f =>
    if strStartsWith f "._" then none
    else if isImageName f then
      let full := dir ++ "/" ++ f
      if full ∈ processed then none else some full
    else none

/-- `_scan_all_images`: walk the tree and collect candidates in traversal
order. -/
def scanAllImages (walk : List (String × List String))
    (processed : Finset String) : List String :=
  (walk.map (fun rf => scanDir processed rf.1 rf.2)).flatten

/-! ## Batch classification (`_classify_batch`) -/

/-- The literal fallback result `{"label": "Unidentified", "score": 0.0}`. -/
def fallbackResult : ClassResult := { label := some "Unidentified", score := some 0 }

/-- The shape normalisation applied to each classifier return item: a
non-empty list yields its head, a dict is kept, anything else becomes the
fallback. -/
def normalizeItem (item : RawItem) : ClassResult :=
  match item with
  | .list (r :: _) => r
  | .dict r => r
  | _ => fallbackResult

/-- `_classify_batch`: call the classifier once on the whole batch and
normalise each item; if that call raises, retry one image at a time, and
an image whose retry also raises gets the literal fallback. -/
def classifyBatch (svc : Service) (batchPaths : List String) : List ClassResult :=
  match svc.batchCall batchPaths with
  | .ok results => results.map normalizeItem
  | .error _ =>
    batchPaths.map fun p =>
      match svc.itemCall p with
      | .ok r => normalizeItem r
      | .error _ => fallbackResult

/-- The classifier contract assumed by the orchestrator (spec §2): one
return item per input path.  Without it the Python loop would index past
the result list. -/
def ServiceOk (svc : Service) : Prop :=
  ∀ b rs, svc.batchCall b = .ok rs → rs.length = b.length

/-! ## Checkpointing (`_save_progress`, `_load_progress`) -/

/-- The payload `_save_progress` serialises from the current state. -/
def mkPayload (st : ProcState) (savedAt : Nat) : Payload :=
  { rootFolder := st.rootFolder
    batchSize := st.batchSize
    confThreshold := st.confThreshold
    savedAt := savedAt
    records := st.records
    processedPaths := st.processedPaths }

/-- `_save_progress`: `safe_makedirs(OUTPUT_DIR)` runs OUTSIDE the
try/except, so a directory-creation failure raises out of the call
uncaught (`.error ()` — the exception propagates and kills the worker);
only after it succeeds is the payload built and written inside the try,
where any failure is caught and merely logged (event `saveFailed`).
`writes` counts earlier checkpoint-save attempts of this process. -/
def saveProgress (env : Env) (st : ProcState) (writes : Nat) :
    Except Unit Event :=
  if env.mkdirOk writes then
    .ok (if env.writeOk writes then .saved (mkPayload st (env.clock writes))
         else .saveFailed)
  else .error ()

/-- What `_load_progress` finds: no `progress.json` file; a file
`json.load` cannot parse (the raise happens before any assignment); a
parseable checkpoint whose `batch_size` is ill-typed, so `int(...)`
raises after `root_folder` was already assigned (`rf` is that value); a
parseable checkpoint whose `confidence_threshold` is ill-typed, so
`float(...)` raises after `root_folder` and `batch_size` were assigned;
or a fully well-typed payload of the shape `_save_progress` writes. -/
inductive FileRead where
  | noFile
  | badJson
  | badBatchSize (rf : String)
  | badConfThreshold (rf : String) (bs : Nat)
  | ok (p : Payload)

/-- `_load_progress`: `False` when the file is absent or malformed — the
warning is shown and nothing is raised into the caller; the assignments
run sequentially inside the try, so a raise at `int(...)`/`float(...)`
leaves the fields assigned before it mutated.  On success restore the
parameters, records and processed paths and return `True`.  The stop
flag and the loaded classifier are untouched in every case. -/
def loadProgress (file : FileRead) (st : ProcState) : Bool × ProcState :=
  match file with
  | .noFile => (false, st)
  | .badJson => (false, st)
  | .badBatchSize rf => (false, { st with rootFolder := rf })
  | .badConfThreshold rf bs =>
    (false, { st with rootFolder := rf, batchSize := bs })
  | .ok p =>
    (true,
     { st with rootFolder := p.rootFolder, batchSize := p.batchSize,
               confThreshold := p.confThreshold, records := p.records,
               processedPaths := p.processedPaths })

/-! ## The batch loop (`process_new` / `process_resume`)

The shared `stop_flag` is modelled as `flag : Nat → Bool`, the value read
at the n-th poll of the flag; polls happen before each batch and before
each record within a batch, exactly as in the source. -/

/-- `reset_state`: clear the flag, the records and the processed set. -/
def resetState (st : ProcState) : ProcState :=
  { st with stopFlag := false, records := [], processedPaths := ∅ }

/-- `stop`: the external request sets the shared flag. -/
def stop (st : ProcState) : ProcState := { st with stopFlag := true }

/-- The inner loop over the `(path, result)` pairs of one batch: poll the
flag before each record; on a set flag break at once, otherwise build the
record, append it, and add the path to the processed set — one step
updates both together. -/
def processItems (env : Env) (flag : Nat → Bool) :
    List (String × ClassResult) → ProcState → Nat → ProcState × Nat
  | [], st, polls => (st, polls)
  | (p, res) :: rest, st, polls =>
    if flag polls then (st, polls + 1)
    else
      let r := recordFromPathAndResult env st.confThreshold p res
      processItems env flag rest
        { st with records := st.records ++ [r],
                  processedPaths := insert p st.processedPaths }
        (polls + 1)

/-- The outer loop over the batches: poll the flag before submitting each
batch (break without saving if set), classify the batch, run the inner
loop, then call `_save_progress` unconditionally — also after a batch the
inner loop cut short.  When the save raises (its makedirs runs outside
the try), the exception propagates out of the loop: the run stops with
the state as built, no event emitted for this batch, and the final
component reports the escaped exception.  Returns the final state, poll
count, save-attempt count, the emitted events in order, and whether an
uncaught exception escaped. -/
def runBatches (env : Env) (flag : Nat → Bool) :
    List (List String) → ProcState → Nat → Nat →
      ProcState × Nat × Nat × List Event × Bool
  | [], st, polls, writes => (st, polls, writes, [], false)
  | b :: rest, st, polls, writes =>
    if flag polls then (st, polls + 1, writes, [], false)
    else
      let results := classifyBatch env.svc b
      let inner := processItems env flag (b.zip results) st (polls + 1)
      match saveProgress env inner.1 writes with
      | .error _ => (inner.1, inner.2, writes, [], true)
      | .ok ev =>
        let out := runBatches env flag rest inner.1 inner.2 (writes + 1)
        (out.1, out.2.1, out.2.2.1, ev :: out.2.2.2.1, out.2.2.2.2)

/-- `range(0, len(l), bs)` slicing into consecutive batches; the fuel
(initially `l.length`) only bounds the recursion and is never exhausted
when `0 < bs`. -/
def chunksFuel : Nat → Nat → List String → List (List String)
  | 0, _, _ => []
  | _ + 1, _, [] => []
  | fuel + 1, bs, l@(_ :: _) => l.take bs :: chunksFuel fuel bs (l.drop bs)

def chunks (bs : Nat) (l : List String) : List (List String) :=
  chunksFuel l.length bs l

/-- The export projection of one record built in `_finalize_processing`:
all fields except the internal `"Path"`. -/
def exportRow (r : Record) : ExportRow :=
  { animalFolder := r.animalFolder, block := r.block, cameraId := r.cameraId,
    animalName := r.animalName, date := r.date, time := r.time }

/-- `_finalize_processing`: export the projected records to Excel, then
call `_save_progress` for a final checkpoint; if that save raises, the
exception escapes after the export already happened (second component
reports it). -/
def finalizeProcessing (env : Env) (st : ProcState) (writes : Nat) :
    List Event × Bool :=
  match saveProgress env st writes with
  | .ok ev => ([.exported (st.records.map exportRow), ev], false)
  | .error _ => ([.exported (st.records.map exportRow)], true)

/-- `process_new`: reset state (this is the only place the stop flag is
cleared), load the model (failure returns at once), scan, and when
anything was found run the batch loop and finalize.  `stops n` is the
flag value read at the n-th poll; the reset makes the pre-existing flag
value irrelevant. -/
def processNew (env : Env) (stops : Nat → Bool) (st0 : ProcState) :
    ProcState × List Event :=
  let st1 := resetState st0
  if !env.modelOk then (st1, [])
  else
    let st2 := { st1 with modelLoaded := true }
    let allPaths := scanAllImages (env.walkOf st2.rootFolder) st2.processedPaths
    if allPaths.isEmpty then (st2, [])
    else
      let out := runBatches env stops (chunks st2.batchSize allPaths) st2 0 0
      if out.2.2.2.2 then (out.1, out.2.2.2.1)  -- the raise propagates: no finalization
      else (out.1, out.2.2.2.1 ++ (finalizeProcessing env out.1 out.2.2.1).1)

/-- `process_resume`: load the checkpoint (failure returns at once), load
the model only when none is loaded, rescan excluding the restored
processed paths; with zero total work return at once, otherwise run the
batch loop over the remainder and finalize.  The stop flag is never
cleared here: every poll reads `st0.stopFlag || stops n`. -/
def processResume (env : Env) (stops : Nat → Bool) (file : FileRead)
    (st0 : ProcState) : ProcState × List Event :=
  match loadProgress file st0 with
  | (false, st) => (st, [])
  | (true, st) =>
    if st.modelLoaded || env.modelOk then
      let st := { st with modelLoaded := true }
      let flag := fun n => st0.stopFlag || stops n
      let remaining := scanAllImages (env.walkOf st.rootFolder) st.processedPaths
      let total := remaining.length + st.processedPaths.card
      if total = 0 then (st, [])
      else
        let out := runBatches env flag (chunks st.batchSize remaining) st 0 0
        if out.2.2.2.2 then (out.1, out.2.2.2.1)  -- the raise propagates
        else (out.1, out.2.2.2.1 ++ (finalizeProcessing env out.1 out.2.2.1).1)
    else (st, [])  -- model load failed: return after the error dialog

/-! ## Derived predicates -/

/-- A deterministic scoring service: classifying any batch yields the
per-path results in order (the ScoringService contract of spec §2). -/
def Pointwise (svc : Service) (f : String → ClassResult) : Prop :=
  ∀ b, classifyBatch svc b = b.map f

/-- The stop flag is only ever set, never cleared, during a run: once a
poll reads `true`, all later polls do. -/
def MonotoneFlag (flag : Nat → Bool) : Prop :=
  ∀ i j, i ≤ j → flag i = true → flag j = true

/-- The de-duplication invariant: the records carry pairwise distinct
source paths and the processed-path set is exactly the set of those
paths (so the two have equal cardinality and correspond 1:1). -/
def Coherent (st : ProcState) : Prop :=
  (st.records.map Record.path).Nodup ∧
  st.processedPaths = (st.records.map Record.path).toFinset

/-! ## Concrete instances (used in counterexamples and witnesses) -/

/-- A service whose every call raises. -/
def trivSvc : Service :=
  { batchCall := fun _ => .error (), itemCall := fun _ => .error () }

/-- An empty world. -/
def trivEnv : Env :=
  { walkOf := fun _ => [], svc := trivSvc, exifDateTime := fun _ => none,
    modelOk := true, mkdirOk := fun _ => true, clock := fun _ => 0,
    writeOk := fun _ => true }

/-- One image under `r/BlockA/Cam1/Deer` with an EXIF DateTime. -/
def envC9 : Env :=
  { trivEnv with
      walkOf := fun _ => [("r/BlockA/Cam1/Deer", ["img1.jpg"])],
      exifDateTime := fun _ => some "2023:05:01 14:22:10" }

/-- The rational 9/10 in normal form. -/
def score09 : Rat := ⟨9, 10, by decide, by decide⟩

/-- The rational 1/2 in normal form. -/
def threshold05 : Rat := ⟨1, 2, by decide, by decide⟩

/-- A service whose batch call raises and whose per-item call succeeds
for exactly one path. -/
def svcFail : Service :=
  { batchCall := fun _ => .error (),
    itemCall := fun p =>
      if p = "r/a.jpg" then .ok (.dict ⟨some "cat", some 1⟩) else .error () }

/-- The constant classification every path gets from `svcCat`. -/
def catResult : ClassResult := ⟨some "cat", some 1⟩

/-- A deterministic service classifying everything as `cat`. -/
def svcCat : Service :=
  { batchCall := fun b => .ok (b.map fun _ => .dict catResult),
    itemCall := fun _ => .error () }

/-- The pointwise result function of `svcCat`. -/
def fCat : String → ClassResult := fun _ => catResult

/-- A world with three images in one directory. -/
def envRun : Env :=
  { walkOf := fun _ => [("r", ["a.jpg", "b.jpg", "c.jpg"])], svc := svcCat,
    exifDateTime := fun _ => none, modelOk := true,
    mkdirOk := fun _ => true, clock := fun n => n, writeOk := fun _ => true }

/-- The same world, but the output directory cannot be created: every
`safe_makedirs(OUTPUT_DIR)` call raises. -/
def envNoMkdir : Env := { envRun with mkdirOk := fun _ => false }

/-- A fresh processor state for `envRun`. -/
def stRun : ProcState :=
  { stopFlag := false, records := [], processedPaths := ∅, rootFolder := "r",
    batchSize := 2, confThreshold := 1, modelLoaded := false }

/-- An empty checkpoint payload. -/
def cpEmpty : Payload :=
  { rootFolder := "r", batchSize := 1, confThreshold := 1, savedAt := 0,
    records := [], processedPaths := ∅ }

/-- A processor whose stop flag is already set. -/
def stStopped : ProcState :=
  { stopFlag := true, records := [], processedPaths := ∅, rootFolder := "x",
    batchSize := 1, confThreshold := 1, modelLoaded := true }

/-- The record `envRun` builds for its first image. -/
def recA : Record := recordFromPathAndResult envRun 1 "r/a.jpg" catResult

/-- A checkpoint of `envRun` taken after its first image. -/
def cpOne : Payload :=
  { rootFolder := "r", batchSize := 1, confThreshold := 1, savedAt := 0,
    records := [recA], processedPaths := {"r/a.jpg"} }

/-! ## Supporting lemmas -/

theorem zip_self_map {α β : Type} (l : List α) (f : α → β) :
    l.zip (l.map f) = l.map fun a => (a, f a) := by
  induction l with
  | nil => rfl
  | cons a t ih => simp [ih]

theorem chunksFuel_flatten (bs : Nat) (hbs : 0 < bs) :
    ∀ fuel (l : List String), l.length ≤ fuel →
      (chunksFuel fuel bs l).flatten = l := by
  intro fuel
  induction fuel with
  | zero =>
    intro l hl
    have : l = [] := List.eq_nil_of_length_eq_zero (Nat.le_zero.mp hl)
    subst this; rfl
  | succ fuel ih =>
    intro l hl
    match l with
    | [] => rfl
    | x :: xs =>
      simp only [chunksFuel, List.flatten_cons]
      rw [ih ((x :: xs).drop bs)
        (by simp only [List.length_drop, List.length_cons] at hl ⊢; omega)]
      exact List.take_append_drop bs (x :: xs)

theorem chunks_flatten (bs : Nat) (hbs : 0 < bs) (l : List String) :
    (chunks bs l).flatten = l :=
  chunksFuel_flatten bs hbs l.length l le_rfl

theorem mem_scanDir {processed : Finset String} {dir full : String}
    {files : List String} :
    full ∈ scanDir processed dir files ↔
      ∃ f ∈ files, full = dir ++ "/" ++ f ∧ strStartsWith f "._" = false ∧
        isImageName f = true ∧ full ∉ processed := by
  simp only [scanDir, List.mem_filterMap]
  constructor
  · rintro ⟨f, hf, h⟩
    by_cases h1 : strStartsWith f "._"
    · simp [h1] at h
    · by_cases h2 : isImageName f
      · by_cases h3 : (dir ++ "/" ++ f) ∈ processed
        · simp [h1, h2, h3] at h
        · simp [h1, h2, h3] at h
          exact ⟨f, hf, h.symm, by simpa using h1, h2, h ▸ h3⟩
      · simp [h1, h2] at h
  · rintro ⟨f, hf, rfl, h1, h2, h3⟩
    exact ⟨f, hf, by simp [h1, h2, h3]⟩

theorem scanDir_eq_filter (processed : Finset String) (dir : String)
    (files : List String) :
    scanDir processed dir files =
      (scanDir ∅ dir files).filter (fun p => decide (p ∉ processed)) := by
  induction files with
  | nil => rfl
  | cons f fs ih =>
    by_cases h1 : strStartsWith f "._"
    · simpa [scanDir, List.filterMap_cons, h1] using ih
    · by_cases h2 : isImageName f
      · by_cases h3 : (dir ++ "/" ++ f) ∈ processed
        · simpa [scanDir, List.filterMap_cons, h1, h2, h3, List.filter_cons] using ih
        · simpa [scanDir, List.filterMap_cons, h1, h2, h3, List.filter_cons] using ih
      · simpa [scanDir, List.filterMap_cons, h1, h2] using ih

theorem scanAllImages_eq_filter (walk : List (String × List String))
    (processed : Finset String) :
    scanAllImages walk processed =
      (scanAllImages walk ∅).filter (fun p => decide (p ∉ processed)) := by
  simp only [scanAllImages]
  induction walk with
  | nil => rfl
  | cons e es ih =>
    simp only [List.map_cons, List.flatten_cons, List.filter_append, ih]
    rw [scanDir_eq_filter processed e.1 e.2]

theorem filter_not_mem_append (t d : List String) (hdis : ∀ a ∈ d, a ∉ t) :
    (t ++ d).filter (fun p => decide (p ∉ t.toFinset)) = d := by
  rw [List.filter_append]
  have h1 : t.filter (fun p => decide (p ∉ t.toFinset)) = [] :=
    List.filter_eq_nil_iff.mpr (fun a ha => by simp [ha])
  have h2 : d.filter (fun p => decide (p ∉ t.toFinset)) = d :=
    List.filter_eq_self.mpr (fun a ha => by simp [hdis a ha])
  rw [h1, h2, List.nil_append]

theorem filter_take_eq_drop {l : List String} (hl : l.Nodup) (k : Nat) :
    l.filter (fun p => decide (p ∉ (l.take k).toFinset)) = l.drop k := by
  have hdis : ∀ a ∈ l.drop k, a ∉ l.take k := by
    intro a ha hmem
    have hnd := List.nodup_append.mp ((List.take_append_drop k l).symm ▸ hl)
    exact hnd.2.2 hmem ha
  have key := filter_not_mem_append (l.take k) (l.drop k) hdis
  rw [List.take_append_drop] at key
  exact key

/-- What the inner loop does: it processes exactly the first `m` pairs
for some `m`, where the flag read `false` at the `m` polls before them
and, unless the whole batch was consumed, read `true` at the next poll;
the records built for those first `m` items are kept and the matching
paths are added to the processed set. -/
theorem processItems_spec (env : Env) (flag : Nat → Bool)
    (l : List (String × ClassResult)) (st : ProcState) (polls : Nat) :
    ∃ m, m ≤ l.length ∧
      (processItems env flag l st polls).1 =
        { st with
            records := st.records ++ (l.take m).map
              (fun pr => recordFromPathAndResult env st.confThreshold pr.1 pr.2),
            processedPaths :=
              st.processedPaths ∪ ((l.take m).map Prod.fst).toFinset } ∧
      (processItems env flag l st polls).2 =
        polls + (if m = l.length then m else m + 1) ∧
      (∀ i, i < m → flag (polls + i) = false) ∧
      (m < l.length → flag (polls + m) = true) := by
  induction l generalizing st polls with
  | nil =>
    refine ⟨0, le_rfl, by simp [processItems], by simp [processItems],
      fun i hi => absurd hi (Nat.not_lt_zero i), fun h => absurd h (by simp)⟩
  | cons hd tl ih =>
    obtain ⟨p, res⟩ := hd
    by_cases hf : flag polls
    · refine ⟨0, by simp, by simp [processItems, hf],
        by simp [processItems, hf], by omega, fun _ => hf⟩
    · obtain ⟨m, hm, hst, hpolls, hfl, hlast⟩ :=
        ih { st with
               records := st.records ++
                 [recordFromPathAndResult env st.confThreshold p res],
               processedPaths := insert p st.processedPaths } (polls + 1)
      refine ⟨m + 1, by simpa using Nat.succ_le_succ hm, ?_, ?_, ?_, ?_⟩
      · show (processItems env flag ((p, res) :: tl) st polls).1 = _
        rw [processItems, if_neg hf, hst]
        cases st with
        | mk sf recs pp rf bs ct ml =>
          simp only [List.take_succ_cons, List.map_cons, List.toFinset_cons,
            ProcState.mk.injEq, and_true, true_and]
          constructor
          · rw [List.append_assoc]; rfl
          · rw [Finset.insert_union, Finset.union_insert]
      · show (processItems env flag ((p, res) :: tl) st polls).2 = _
        rw [processItems, if_neg hf, hpolls]
        simp only [List.length_cons]
        split_ifs <;> omega
      · intro i hi
        match i with
        | 0 => simpa using hf
        | j + 1 =>
          have harg : polls + (j + 1) = (polls + 1) + j := by omega
          rw [harg]
          exact hfl j (by omega)
      · intro hlt
        have harg : polls + (m + 1) = (polls + 1) + m := by omega
        rw [harg]
        exact hlast (by simpa using Nat.lt_of_succ_lt_succ hlt)

/-- When the flag is never raised the inner loop processes the whole
batch. -/
theorem processItems_all (env : Env) (flag : Nat → Bool)
    (l : List (String × ClassResult)) (st : ProcState) (polls : Nat)
    (hflag : ∀ n, flag n = false) :
    (processItems env flag l st polls).1 =
      { st with
          records := st.records ++ l.map
            (fun pr => recordFromPathAndResult env st.confThreshold pr.1 pr.2),
          processedPaths := st.processedPaths ∪ (l.map Prod.fst).toFinset } ∧
    (processItems env flag l st polls).2 = polls + l.length := by
  obtain ⟨m, hm, hst, hpolls, _, hlast⟩ := processItems_spec env flag l st polls
  have hml : m = l.length := by
    by_contra h
    have := hlast (lt_of_le_of_ne hm h)
    rw [hflag] at this
    exact absurd this (by simp)
  subst hml
  rw [List.take_length] at hst
  rw [if_pos rfl] at hpolls
  exact ⟨hst, hpolls⟩

/-- When the checkpoint directory can be created, a save returns an
event — a persisted checkpoint on write success, a logged failure
otherwise — and never raises. -/
theorem saveProgress_ok (env : Env) (st : ProcState) (w : Nat)
    (hmk : env.mkdirOk w = true) :
    saveProgress env st w =
      Except.ok (if env.writeOk w then Event.saved (mkPayload st (env.clock w))
                 else Event.saveFailed) := by
  rw [saveProgress, if_pos hmk]

/-- A save with a creatable directory and a succeeding write persists
exactly the current payload. -/
theorem saveProgress_saved (env : Env) (st : ProcState) (w : Nat)
    (hmk : env.mkdirOk w = true) (hw : env.writeOk w = true) :
    saveProgress env st w =
      Except.ok (Event.saved (mkPayload st (env.clock w))) := by
  rw [saveProgress, if_pos hmk, if_pos hw]

/-- When the output directory cannot be created, `safe_makedirs` raises
outside the try/except of `_save_progress`: the save raises. -/
theorem saveProgress_raise (env : Env) (st : ProcState) (w : Nat)
    (hmk : ¬ env.mkdirOk w = true) :
    saveProgress env st w = Except.error () := by
  rw [saveProgress, if_neg hmk]

/-- Finalization with a creatable output directory: export the rows,
then emit the final save's event; nothing raises. -/
theorem finalizeProcessing_ok (env : Env) (st : ProcState) (w : Nat)
    (hmk : env.mkdirOk w = true) :
    finalizeProcessing env st w =
      ([Event.exported (st.records.map exportRow),
        if env.writeOk w then Event.saved (mkPayload st (env.clock w))
        else Event.saveFailed], false) := by
  rw [finalizeProcessing, saveProgress_ok env st w hmk]

/-- A loop started while the flag already reads `true` does nothing: no
batch is submitted, no record appended, no checkpoint written, no
exception raised. -/
theorem runBatches_flagged (env : Env) (flag : Nat → Bool)
    (batches : List (List String)) (st : ProcState) (polls writes : Nat)
    (h : flag polls = true) :
    (runBatches env flag batches st polls writes).1 = st ∧
    (runBatches env flag batches st polls writes).2.2.1 = writes ∧
    (runBatches env flag batches st polls writes).2.2.2.1 = [] ∧
    (runBatches env flag batches st polls writes).2.2.2.2 = false := by
  cases batches with
  | nil => exact ⟨rfl, rfl, rfl, rfl⟩
  | cons b rest => rw [runBatches, if_pos h]; exact ⟨rfl, rfl, rfl, rfl⟩

/-- One unfolding of the loop on an entered batch whose checkpoint save
returns normally. -/
theorem runBatches_cons (env : Env) (flag : Nat → Bool) (b : List String)
    (rest : List (List String)) (st : ProcState) (polls writes : Nat)
    (hf : ¬ flag polls = true) {ev : Event}
    (hev : saveProgress env
        (processItems env flag (b.zip (classifyBatch env.svc b)) st (polls + 1)).1
        writes = Except.ok ev) :
    runBatches env flag (b :: rest) st polls writes =
      ((runBatches env flag rest
          (processItems env flag (b.zip (classifyBatch env.svc b)) st (polls + 1)).1
          (processItems env flag (b.zip (classifyBatch env.svc b)) st (polls + 1)).2
          (writes + 1)).1,
       (runBatches env flag rest
          (processItems env flag (b.zip (classifyBatch env.svc b)) st (polls + 1)).1
          (processItems env flag (b.zip (classifyBatch env.svc b)) st (polls + 1)).2
          (writes + 1)).2.1,
       (runBatches env flag rest
          (processItems env flag (b.zip (classifyBatch env.svc b)) st (polls + 1)).1
          (processItems env flag (b.zip (classifyBatch env.svc b)) st (polls + 1)).2
          (writes + 1)).2.2.1,
       ev ::
         (runBatches env flag rest
          (processItems env flag (b.zip (classifyBatch env.svc b)) st (polls + 1)).1
          (processItems env flag (b.zip (classifyBatch env.svc b)) st (polls + 1)).2
          (writes + 1)).2.2.2.1,
       (runBatches env flag rest
          (processItems env flag (b.zip (classifyBatch env.svc b)) st (polls + 1)).1
          (processItems env flag (b.zip (classifyBatch env.svc b)) st (polls + 1)).2
          (writes + 1)).2.2.2.2) := by
  rw [runBatches, if_neg hf]
  simp only [hev]

/-- One unfolding of the loop on an entered batch whose checkpoint save
raises: the loop aborts with the inner state, emitting no event and
reporting the crash. -/
theorem runBatches_cons_raise (env : Env) (flag : Nat → Bool) (b : List String)
    (rest : List (List String)) (st : ProcState) (polls writes : Nat)
    (hf : ¬ flag polls = true)
    (hev : saveProgress env
        (processItems env flag (b.zip (classifyBatch env.svc b)) st (polls + 1)).1
        writes = Except.error ()) :
    runBatches env flag (b :: rest) st polls writes =
      ((processItems env flag (b.zip (classifyBatch env.svc b)) st (polls + 1)).1,
       (processItems env flag (b.zip (classifyBatch env.svc b)) st (polls + 1)).2,
       writes, [], true) := by
  rw [runBatches, if_neg hf]
  simp only [hev]

/-- When the output directory can always be created, the loop never
crashes. -/
theorem runBatches_no_crash (env : Env) (flag : Nat → Bool)
    (hmk : ∀ n, env.mkdirOk n = true) :
    ∀ (batches : List (List String)) (st : ProcState) (polls writes : Nat),
      (runBatches env flag batches st polls writes).2.2.2.2 = false := by
  intro batches
  induction batches with
  | nil => intro st polls writes; rfl
  | cons b rest ih =>
    intro st polls writes
    by_cases hf : flag polls
    · exact (runBatches_flagged env flag (b :: rest) st polls writes hf).2.2.2
    · rw [runBatches_cons env flag b rest st polls writes hf
        (saveProgress_ok env _ writes (hmk writes))]
      exact ih _ _ _

/-- A loop that emitted no event also left the state untouched: with the
output directory creatable, every entered batch emits a checkpoint
event. -/
theorem runBatches_empty_trace (env : Env) (flag : Nat → Bool)
    (batches : List (List String)) (st : ProcState) (polls writes : Nat)
    (hmk : ∀ n, env.mkdirOk n = true)
    (h : (runBatches env flag batches st polls writes).2.2.2.1 = []) :
    (runBatches env flag batches st polls writes).1 = st := by
  cases batches with
  | nil => rfl
  | cons b rest =>
    by_cases hf : flag polls
    · exact (runBatches_flagged env flag (b :: rest) st polls writes hf).1
    · rw [runBatches_cons env flag b rest st polls writes hf
        (saveProgress_ok env _ writes (hmk writes))] at h
      simp at h

/-- The loop only ever appends records; every other field of the state
is preserved — also when a checkpoint save raises and the loop aborts. -/
theorem runBatches_extend (env : Env) (flag : Nat → Bool) :
    ∀ (batches : List (List String)) (st : ProcState) (polls writes : Nat),
      ∃ tl, (runBatches env flag batches st polls writes).1 =
        { st with
            records := st.records ++ tl,
            processedPaths :=
              (runBatches env flag batches st polls writes).1.processedPaths } := by
  intro batches
  induction batches with
  | nil =>
    intro st polls writes
    exact ⟨[], by simp [runBatches]⟩
  | cons b rest ih =>
    intro st polls writes
    by_cases hf : flag polls
    · refine ⟨[], ?_⟩
      rw [runBatches, if_pos hf]
      simp
    · obtain ⟨m, hm, hst, hpolls, _, _⟩ :=
        processItems_spec env flag (b.zip (classifyBatch env.svc b)) st (polls + 1)
      cases hsv : saveProgress env (processItems env flag
          (b.zip (classifyBatch env.svc b)) st (polls + 1)).1 writes with
      | error e =>
        refine ⟨((b.zip (classifyBatch env.svc b)).take m).map
          (fun pr => recordFromPathAndResult env st.confThreshold pr.1 pr.2), ?_⟩
        cases e
        rw [runBatches_cons_raise env flag b rest st polls writes hf hsv]
        dsimp only
        rw [hst]
      | ok ev =>
        obtain ⟨tl, htl⟩ := ih (processItems env flag
          (b.zip (classifyBatch env.svc b)) st (polls + 1)).1
          (processItems env flag (b.zip (classifyBatch env.svc b)) st (polls + 1)).2
          (writes + 1)
        refine ⟨(((b.zip (classifyBatch env.svc b)).take m).map
          (fun pr => recordFromPathAndResult env st.confThreshold pr.1 pr.2)) ++ tl, ?_⟩
        rw [runBatches_cons env flag b rest st polls writes hf hsv]
        show (runBatches env flag rest _ _ (writes + 1)).1 = _
        rw [htl, hst]
        cases st with
        | mk sf recs pp rf bs ct ml => simp [List.append_assoc]

/-- In a run where the flag never trips and the output directory is
creatable, the loop emits exactly one checkpoint event per batch. -/
theorem runBatches_trace_length (env : Env) (flag : Nat → Bool)
    (hflag : ∀ n, flag n = false) (hmk : ∀ n, env.mkdirOk n = true) :
    ∀ (batches : List (List String)) (st : ProcState) (polls writes : Nat),
      (runBatches env flag batches st polls writes).2.2.2.1.length =
        batches.length := by
  intro batches
  induction batches with
  | nil => intro st polls writes; rfl
  | cons b rest ih =>
    intro st polls writes
    rw [runBatches_cons env flag b rest st polls writes (by simp [hflag])
      (saveProgress_ok env _ writes (hmk writes))]
    dsimp only
    simp [ih]

/-- When the output directory is creatable and every checkpoint write
succeeds: every emitted event is a persisted checkpoint whose records
are an initial segment of the final records, and the checkpoint emitted
last carries exactly the final records and processed set — in
particular the records of a batch cut short by cancellation. -/
theorem runBatches_saves (env : Env) (flag : Nat → Bool)
    (hmk : ∀ n, env.mkdirOk n = true) (hw : ∀ n, env.writeOk n = true) :
    ∀ (batches : List (List String)) (st : ProcState) (polls writes : Nat),
      (∀ e ∈ (runBatches env flag batches st polls writes).2.2.2.1,
        ∃ cp, e = Event.saved cp ∧
          ∃ tl, (runBatches env flag batches st polls writes).1.records =
            cp.records ++ tl) ∧
      ((runBatches env flag batches st polls writes).2.2.2.1 ≠ [] →
        ∃ cp, (runBatches env flag batches st polls writes).2.2.2.1.getLast? =
            some (Event.saved cp) ∧
          cp.records = (runBatches env flag batches st polls writes).1.records ∧
          cp.processedPaths =
            (runBatches env flag batches st polls writes).1.processedPaths) := by
  intro batches
  induction batches with
  | nil =>
    intro st polls writes
    exact ⟨by simp [runBatches], by simp [runBatches]⟩
  | cons b rest ih =>
    intro st polls writes
    by_cases hf : flag polls
    · rw [runBatches, if_pos hf]
      exact ⟨by simp, by simp⟩
    · rw [runBatches_cons env flag b rest st polls writes hf
        (saveProgress_saved env _ writes (hmk writes) (hw writes))]
      generalize (processItems env flag (b.zip (classifyBatch env.svc b)) st
        (polls + 1)) = inner
      dsimp only
      constructor
      · intro e he
        rcases List.mem_cons.mp he with rfl | hmem
        · refine ⟨mkPayload inner.1 (env.clock writes), rfl, ?_⟩
          obtain ⟨tl, htl⟩ :=
            runBatches_extend env flag rest inner.1 inner.2 (writes + 1)
          exact ⟨tl, by rw [htl]; simp [mkPayload]⟩
        · obtain ⟨cp, hcp, tl, htl⟩ :=
            (ih inner.1 inner.2 (writes + 1)).1 e hmem
          exact ⟨cp, hcp, tl, htl⟩
      · intro _
        rcases hrest : (runBatches env flag rest inner.1 inner.2
            (writes + 1)).2.2.2.1 with _ | ⟨x, xs⟩
        · refine ⟨mkPayload inner.1 (env.clock writes), ?_, ?_, ?_⟩
          · simp [hrest]
          · rw [runBatches_empty_trace env flag rest inner.1 inner.2
              (writes + 1) hmk hrest]
            rfl
          · rw [runBatches_empty_trace env flag rest inner.1 inner.2
              (writes + 1) hmk hrest]
            rfl
        · obtain ⟨cp, hlast, hrec, hproc⟩ :=
            (ih inner.1 inner.2 (writes + 1)).2 (by rw [hrest]; simp)
          refine ⟨cp, ?_, hrec, hproc⟩
          rw [hrest] at hlast
          rw [List.getLast?_cons_cons]
          exact hlast

/-- Inner loop over a batch whose results are pointwise, with the flag
never raised: everything is processed. -/
theorem processItems_pointwise_all (env : Env) (flag : Nat → Bool)
    (f : String → ClassResult) (b : List String) (st : ProcState) (polls : Nat)
    (hflag : ∀ n, flag n = false) :
    (processItems env flag (b.zip (b.map f)) st polls).1 =
      { st with
          records := st.records ++ b.map
            (fun p => recordFromPathAndResult env st.confThreshold p (f p)),
          processedPaths := st.processedPaths ∪ b.toFinset } ∧
    (processItems env flag (b.zip (b.map f)) st polls).2 = polls + b.length := by
  rw [zip_self_map]
  obtain ⟨h1, h2⟩ :=
    processItems_all env flag (b.map fun a => (a, f a)) st polls hflag
  refine ⟨?_, by simpa using h2⟩
  rw [h1]
  cases st with
  | mk sf recs pp rf bs ct ml =>
    simp [List.map_map, Function.comp_def, List.map_id']

/-- A run in which the flag never trips and the output directory is
creatable processes every path of every batch, in order. -/
theorem runBatches_all (env : Env) (flag : Nat → Bool) (f : String → ClassResult)
    (hpw : Pointwise env.svc f) (hflag : ∀ n, flag n = false)
    (hmk : ∀ n, env.mkdirOk n = true) :
    ∀ (batches : List (List String)) (st : ProcState) (polls writes : Nat),
      (runBatches env flag batches st polls writes).1 =
        { st with
            records := st.records ++ batches.flatten.map
              (fun p => recordFromPathAndResult env st.confThreshold p (f p)),
            processedPaths := st.processedPaths ∪ batches.flatten.toFinset } := by
  intro batches
  induction batches with
  | nil => intro st polls writes; simp [runBatches]
  | cons b rest ih =>
    intro st polls writes
    rw [runBatches_cons env flag b rest st polls writes (by simp [hflag])
      (saveProgress_ok env _ writes (hmk writes))]
    dsimp only
    rw [hpw b]
    obtain ⟨h1, h2⟩ := processItems_pointwise_all env flag f b st (polls + 1) hflag
    rw [h1, ih]
    cases st with
    | mk sf recs pp rf bs ct ml =>
      simp [List.flatten_cons, List.map_append, List.append_assoc,
        List.toFinset_append, Finset.union_assoc]

/-- Under a monotone flag (a run can only be stopped, never restarted),
a pointwise service and a creatable output directory: the final state of
the loop holds the records of exactly an initial segment of the
flattened batches, and every checkpoint the loop persisted holds such an
initial segment together with the unchanged configuration. -/
theorem runBatches_mono (env : Env) (flag : Nat → Bool) (f : String → ClassResult)
    (hpw : Pointwise env.svc f) (hmono : MonotoneFlag flag)
    (hmk : ∀ n, env.mkdirOk n = true) :
    ∀ (batches : List (List String)) (st : ProcState) (polls writes : Nat),
      (∃ k, k ≤ batches.flatten.length ∧
        (runBatches env flag batches st polls writes).1 =
          { st with
              records := st.records ++ (batches.flatten.take k).map
                (fun p => recordFromPathAndResult env st.confThreshold p (f p)),
              processedPaths :=
                st.processedPaths ∪ (batches.flatten.take k).toFinset }) ∧
      (∀ cp, Event.saved cp ∈ (runBatches env flag batches st polls writes).2.2.2.1 →
        ∃ k, k ≤ batches.flatten.length ∧
          cp.records = st.records ++ (batches.flatten.take k).map
            (fun p => recordFromPathAndResult env st.confThreshold p (f p)) ∧
          cp.processedPaths =
            st.processedPaths ∪ (batches.flatten.take k).toFinset ∧
          cp.rootFolder = st.rootFolder ∧ cp.batchSize = st.batchSize ∧
          cp.confThreshold = st.confThreshold) := by
  intro batches
  induction batches with
  | nil =>
    intro st polls writes
    exact ⟨⟨0, Nat.le_refl 0, by simp [runBatches]⟩, by simp [runBatches]⟩
  | cons b rest ih =>
    intro st polls writes
    by_cases hf : flag polls
    · constructor
      · refine ⟨0, Nat.zero_le _, ?_⟩
        rw [(runBatches_flagged env flag (b :: rest) st polls writes hf).1]
        simp
      · intro cp hcp
        rw [(runBatches_flagged env flag (b :: rest) st polls writes hf).2.2.1] at hcp
        simp at hcp
    · rw [runBatches_cons env flag b rest st polls writes hf
        (saveProgress_ok env _ writes (hmk writes))]
      dsimp only
      rw [hpw b, zip_self_map]
      obtain ⟨m, hm, hst, hpolls, hfl, hlast⟩ :=
        processItems_spec env flag (b.map fun a => (a, f a)) st (polls + 1)
      have hmb : m ≤ b.length := by simpa using hm
      obtain ⟨sf, recs, pp, rf, bs, ct, ml⟩ := st
      have hst' : (processItems env flag (b.map fun a => (a, f a))
          (ProcState.mk sf recs pp rf bs ct ml) (polls + 1)).1 =
        ProcState.mk sf
          (recs ++ (b.take m).map
            (fun p => recordFromPathAndResult env ct p (f p)))
          (pp ∪ (b.take m).toFinset) rf bs ct ml := by
        rw [hst]
        simp [← List.map_take, List.map_map, Function.comp_def, List.map_id']
      have htakem : ((b :: rest).flatten).take m = b.take m := by
        rw [List.flatten_cons]
        exact List.take_append_of_le_length hmb
      have hlenm : m ≤ (b :: rest).flatten.length := by
        simp only [List.flatten_cons, List.length_append]
        omega
      rcases Nat.lt_or_ge m b.length with hpart | hfull
      · -- the flag was observed mid-batch: the rest of the loop is skipped
        have hflagtrue : flag ((processItems env flag
            (b.map fun a => (a, f a))
            (ProcState.mk sf recs pp rf bs ct ml) (polls + 1)).2) = true := by
          rw [hpolls, if_neg (by simp; omega)]
          exact hmono ((polls + 1) + m) (polls + 1 + (m + 1)) (by omega)
            (hlast (by simpa using hpart))
        obtain ⟨hout, hwr, htrace, hcrash⟩ := runBatches_flagged env flag rest
          (processItems env flag (b.map fun a => (a, f a))
            (ProcState.mk sf recs pp rf bs ct ml) (polls + 1)).1
          (processItems env flag (b.map fun a => (a, f a))
            (ProcState.mk sf recs pp rf bs ct ml) (polls + 1)).2
          (writes + 1) hflagtrue
        constructor
        · refine ⟨m, hlenm, ?_⟩
          rw [hout, hst', htakem]
        · intro cp hcp
          rw [htrace] at hcp
          rcases List.mem_cons.mp hcp with hhd | hmem
          · refine ⟨m, hlenm, ?_⟩
            split_ifs at hhd with hwok
            rw [(Event.saved.injEq _ _).mp hhd, hst', htakem]
            exact ⟨rfl, rfl, rfl, rfl, rfl⟩
          · exact absurd hmem (by simp)
      · -- the whole batch was processed; recurse on the remaining batches
        have hfull' : m = b.length := Nat.le_antisymm hmb hfull
        subst hfull'
        rw [List.take_length] at hst' htakem
        obtain ⟨⟨k', hk', hout⟩, hsaves⟩ := ih
          (processItems env flag (b.map fun a => (a, f a))
            (ProcState.mk sf recs pp rf bs ct ml) (polls + 1)).1
          (processItems env flag (b.map fun a => (a, f a))
            (ProcState.mk sf recs pp rf bs ct ml) (polls + 1)).2
          (writes + 1)
        have htakeapp : ((b :: rest).flatten).take (b.length + k') =
            b ++ rest.flatten.take k' := by
          rw [List.flatten_cons]
          exact List.take_append k'
        have hlenapp : b.length + k' ≤ (b :: rest).flatten.length := by
          simp only [List.flatten_cons, List.length_append]
          omega
        constructor
        · refine ⟨b.length + k', hlenapp, ?_⟩
          rw [hout, hst', htakeapp]
          simp [List.map_append, List.append_assoc, List.toFinset_append,
            Finset.union_assoc]
        · intro cp hcp
          rcases List.mem_cons.mp hcp with hhd | hmem
          · refine ⟨b.length, hlenm, ?_⟩
            split_ifs at hhd with hwok
            rw [(Event.saved.injEq _ _).mp hhd, hst', htakem]
            exact ⟨rfl, rfl, rfl, rfl, rfl⟩
          · obtain ⟨k'', hk'', hcr, hcpp, hcrf, hcbs, hcct⟩ := hsaves cp hmem
            refine ⟨b.length + k'', ?_, ?_, ?_, ?_, ?_, ?_⟩
            · simp only [List.flatten_cons, List.length_append]
              omega
            · rw [hcr, hst']
              have : ((b :: rest).flatten).take (b.length + k'') =
                  b ++ rest.flatten.take k'' := by
                rw [List.flatten_cons]
                exact List.take_append k''
              rw [this]
              simp [List.map_append, List.append_assoc]
            · rw [hcpp, hst']
              have : ((b :: rest).flatten).take (b.length + k'') =
                  b ++ rest.flatten.take k'' := by
                rw [List.flatten_cons]
                exact List.take_append k''
              rw [this]
              simp [List.toFinset_append, Finset.union_assoc]
            · rw [hcrf, hst']
            · rw [hcbs, hst']
            · rw [hcct, hst']

/-! ## The claims -/

/-- C1 (counterexample): with threshold 0 and score 1 the score is not
below the threshold, yet the resolved name stored into the record is
"Unidentified" because the raw label itself is "Unidentified" — so the
"only if" direction of the claimed equivalence fails. -/
theorem spec_C1_counterexample :
    resolveAnimalName { label := some "Unidentified", score := some 1 } 0 =
      "Unidentified" ∧
    ¬ ((1 : Rat) < 0) ∧
    (recordFromPathAndResult trivEnv 0 "r/B/C1/Deer/x.jpg"
        { label := some "Unidentified", score := some 1 }).animalName =
      buildHyperlinkForAnimal "Unidentified" :=
  ⟨by decide, by decide, by decide⟩

/-- C1 (amended): the record builder stores the hyperlink wrapping of
the resolved name, and the resolved name is "Unidentified" iff the score
is strictly below the threshold OR the trimmed first comma-segment of
the (defaulted) label is itself "Unidentified". -/
theorem spec_C1 (env : Env) (t : Rat) (p : String) (result : ClassResult) :
    (recordFromPathAndResult env t p result).animalName =
      buildHyperlinkForAnimal (resolveAnimalName result t) ∧
    (resolveAnimalName result t = "Unidentified" ↔
      (result.score.getD 0 < t ∨
        String.mk (pyStrip ((splitOnChar ','
          (labelOrUnidentified result.label).data).headD [])) =
          "Unidentified")) := by
  refine ⟨rfl, ?_⟩
  by_cases h : result.score.getD 0 < t
  · simp [resolveAnimalName, h]
  · simp [resolveAnimalName, h]

/-- C6 (counterexample): for display text containing a double quote the
formula embeds the raw text, not its percent-encoding — the query is
encoded but the display text is not. -/
theorem spec_C6_counterexample :
    buildHyperlinkForAnimal "a\"b" =
      "=HYPERLINK(\"https://www.google.com/search?q=a%22b\", \"a\"b\")" ∧
    quotePlus "a\"b" = "a%22b" ∧
    ("a\"b" : String) ≠ "a%22b" :=
  ⟨by decide, by decide, by decide⟩

/-- C6 (amended): the Animal Name cell is a HYPERLINK formula whose
display text is the resolved name (defaulted to "Unidentified" when
empty) inserted verbatim (not percent-encoded), and whose target is a
web search URL whose query is the quote-plus encoding of the display
text, except that the encoding of the fixed query
"wildlife+image+unidentified" is substituted when the display text
lowercases to "unidentified". -/
theorem spec_C6 (name : String) :
    ∃ q, buildHyperlinkForAnimal name =
        "=HYPERLINK(" ++ "\"" ++ ("https://www.google.com/search?q=" ++ q) ++
          "\", \"" ++ (if name = "" then "Unidentified" else name) ++ "\")" ∧
      (lowerStr (if name = "" then "Unidentified" else name) = "unidentified" →
        q = "wildlife%2Bimage%2Bunidentified") ∧
      (lowerStr (if name = "" then "Unidentified" else name) ≠ "unidentified" →
        q = quotePlus (if name = "" then "Unidentified" else name)) := by
  refine ⟨quotePlus (if lowerStr (if name = "" then "Unidentified" else name)
      ≠ "unidentified" then (if name = "" then "Unidentified" else name)
      else "wildlife+image+unidentified"), rfl, ?_, ?_⟩
  · intro hl
    rw [if_neg (not_not_intro hl)]
    decide
  · intro hl
    rw [if_pos hl]

/-- C6 witness: instantiating the amended claim at "Deer". -/
theorem spec_C6_witness :
    buildHyperlinkForAnimal "Deer" =
      "=HYPERLINK(" ++ "\"" ++
        ("https://www.google.com/search?q=" ++ quotePlus "Deer") ++
        "\", \"" ++ "Deer" ++ "\")" := by
  obtain ⟨q, hfor, _, himp⟩ := spec_C6 "Deer"
  rw [himp (by decide)] at hfor
  simpa using hfor

/-- C7: a path is produced by the scanner iff it comes from a walked
directory entry whose file name does not start with "._", has one of the
image extensions (case-insensitively), and whose joined path is not in
the excluded set; and when every walked file fails these conditions the
scanner returns the empty list (it never errors). -/
theorem spec_C7 (walk : List (String × List String)) (processed : Finset String)
    (full : String) :
    (full ∈ scanAllImages walk processed ↔
      ∃ e ∈ walk, ∃ f ∈ e.2, full = e.1 ++ "/" ++ f ∧
        strStartsWith f "._" = false ∧ isImageName f = true ∧
        full ∉ processed) ∧
    ((∀ e ∈ walk, ∀ f ∈ e.2, strStartsWith f "._" = true ∨
        isImageName f = false ∨ (e.1 ++ "/" ++ f) ∈ processed) →
      scanAllImages walk processed = []) := by
  have hmem : ∀ a, a ∈ scanAllImages walk processed ↔
      ∃ e ∈ walk, ∃ f ∈ e.2, a = e.1 ++ "/" ++ f ∧
        strStartsWith f "._" = false ∧ isImageName f = true ∧
        a ∉ processed := by
    intro a
    simp only [scanAllImages, List.mem_flatten, List.mem_map]
    constructor
    · rintro ⟨l, ⟨e, he, rfl⟩, hl⟩
      obtain ⟨f, hf, h1, h2, h3, h4⟩ := mem_scanDir.mp hl
      exact ⟨e, he, f, hf, h1, h2, h3, h4⟩
    · rintro ⟨e, he, f, hf, h1, h2, h3, h4⟩
      exact ⟨scanDir processed e.1 e.2, ⟨e, he, rfl⟩,
        mem_scanDir.mpr ⟨f, hf, h1, h2, h3, h4⟩⟩
  refine ⟨hmem full, ?_⟩
  intro hnone
  rw [List.eq_nil_iff_forall_not_mem]
  intro a ha
  obtain ⟨e, he, f, hf, rfl, h2, h3, h4⟩ := (hmem a).mp ha
  rcases hnone e he f hf with h | h | h
  · rw [h2] at h; exact absurd h (by simp)
  · rw [h3] at h; exact absurd h (by simp)
  · exact h4 h

/-- C7 witness: a walk whose only files are a sidecar and a non-image
produces the empty candidate list. -/
theorem spec_C7_witness :
    scanAllImages [("r", ["._x.jpg", "y.txt"])] (∅ : Finset String) = [] :=
  (spec_C7 [("r", ["._x.jpg", "y.txt"])] ∅ "r/._x.jpg").2 (by decide)

/-- C9: for `r/BlockA/Cam1/Deer/img1.jpg` with EXIF DateTime
"2023:05:01 14:22:10", threshold 1/2 and result
(label "deer, white-tailed", score 9/10), the built record has animal
folder "Deer", camera "Cam1", block "BlockA", resolved name "deer"
(stored as its hyperlink formula), date "2023-05-01", time "14:22:10". -/
theorem spec_C9 :
    score09 = 9 / 10 ∧ threshold05 = 1 / 2 ∧
    resolveAnimalName { label := some "deer, white-tailed", score := some score09 }
      threshold05 = "deer" ∧
    recordFromPathAndResult envC9 threshold05 "r/BlockA/Cam1/Deer/img1.jpg"
        { label := some "deer, white-tailed", score := some score09 } =
      { animalFolder := some "Deer", block := some "BlockA",
        cameraId := some "Cam1",
        animalName := buildHyperlinkForAnimal "deer",
        date := some "2023-05-01", time := some "14:22:10",
        path := "r/BlockA/Cam1/Deer/img1.jpg" } := by
  refine ⟨?_, ?_, by decide, by decide⟩
  · rw [score09, Rat.mk'_eq_divInt, Rat.divInt_eq_div]; norm_num
  · rw [threshold05, Rat.mk'_eq_divInt, Rat.divInt_eq_div]; norm_num

/-- C5: the batch classification step is total and returns one result
per input path in input order — under the service contract that a
successful batch call returns one item per path; when the batch call
raises, each path is retried individually and a path whose retry also
raises is assigned the literal fallback
(label "Unidentified", score 0). -/
theorem spec_C5 (svc : Service) (batch : List String) (hok : ServiceOk svc) :
    (classifyBatch svc batch).length = batch.length ∧
    (∀ rs, svc.batchCall batch = .ok rs →
      classifyBatch svc batch = rs.map normalizeItem) ∧
    (∀ e, svc.batchCall batch = .error e →
      classifyBatch svc batch = batch.map fun p =>
        match svc.itemCall p with
        | .ok r => normalizeItem r
        | .error _ => fallbackResult) ∧
    fallbackResult = { label := some "Unidentified", score := some 0 } := by
  refine ⟨?_, ?_, ?_, rfl⟩
  · unfold classifyBatch
    cases h : svc.batchCall batch with
    | ok rs => simp [hok batch rs h]
    | error e => simp
  · intro rs h
    unfold classifyBatch
    rw [h]
  · intro e h
    unfold classifyBatch
    rw [h]

/-- C5 witness: a failing batch call over two paths, one of which also
fails its per-item retry, yields the per-item result and the fallback. -/
theorem spec_C5_witness :
    ServiceOk svcFail ∧
    (classifyBatch svcFail ["r/a.jpg", "r/b.jpg"]).length = 2 ∧
    classifyBatch svcFail ["r/a.jpg", "r/b.jpg"] =
      [{ label := some "cat", score := some 1 }, fallbackResult] := by
  have hok : ServiceOk svcFail := fun b rs h => Except.noConfusion h
  refine ⟨hok, by simpa using (spec_C5 svcFail ["r/a.jpg", "r/b.jpg"] hok).1, ?_⟩
  rw [(spec_C5 svcFail ["r/a.jpg", "r/b.jpg"] hok).2.2.1 () rfl]
  decide

/-- C2: with the output directory creatable and all checkpoint writes
succeeding — the scope in which "persisted" makes sense — (and the
service honouring
its one-result-per-path contract, which the loop relies on): every event
the batch loop emits is a persisted checkpoint whose records are an
initial segment of the loop's final records; if the loop emitted any
checkpoint, the last one carries exactly the final records and processed
set — so the records of a batch cut short mid-way are persisted; in an
uninterrupted run there is exactly one checkpoint per batch; an entered
batch always produces a checkpoint; and the inner loop keeps precisely
the records of the items processed before the flag was observed.  Both
`process_new` and `process_resume` run their batch loop through
`runBatches`. -/
theorem spec_C2 (env : Env) (flag : Nat → Bool) (batches : List (List String))
    (st : ProcState) (polls writes : Nat)
    (_hok : ServiceOk env.svc) (hmk : ∀ n, env.mkdirOk n = true)
    (hw : ∀ n, env.writeOk n = true) :
    (∀ e ∈ (runBatches env flag batches st polls writes).2.2.2.1,
      ∃ cp, e = Event.saved cp ∧
        ∃ tl, (runBatches env flag batches st polls writes).1.records =
          cp.records ++ tl) ∧
    ((runBatches env flag batches st polls writes).2.2.2.1 ≠ [] →
      ∃ cp, (runBatches env flag batches st polls writes).2.2.2.1.getLast? =
          some (Event.saved cp) ∧
        cp.records = (runBatches env flag batches st polls writes).1.records ∧
        cp.processedPaths =
          (runBatches env flag batches st polls writes).1.processedPaths) ∧
    ((∀ n, flag n = false) →
      (runBatches env flag batches st polls writes).2.2.2.1.length =
        batches.length) ∧
    (flag polls = false → batches ≠ [] →
      (runBatches env flag batches st polls writes).2.2.2.1 ≠ []) ∧
    (∀ (l : List (String × ClassResult)) (st' : ProcState) (polls' : Nat),
      ∃ m, m ≤ l.length ∧
        (processItems env flag l st' polls').1.records =
          st'.records ++ (l.take m).map (fun pr =>
            recordFromPathAndResult env st'.confThreshold pr.1 pr.2) ∧
        (∀ i, i < m → flag (polls' + i) = false) ∧
        (m < l.length → flag (polls' + m) = true)) := by
  refine ⟨(runBatches_saves env flag hmk hw batches st polls writes).1,
    (runBatches_saves env flag hmk hw batches st polls writes).2,
    fun hflag => runBatches_trace_length env flag hflag hmk batches st polls
      writes,
    ?_, ?_⟩
  · intro hf hb
    cases batches with
    | nil => exact absurd rfl hb
    | cons b rest =>
      rw [runBatches_cons env flag b rest st polls writes (by rw [hf]; simp)
        (saveProgress_ok env _ writes (hmk writes))]
      simp
  · intro l st' polls'
    obtain ⟨m, hm, hst, _, hfl, hlast⟩ := processItems_spec env flag l st' polls'
    exact ⟨m, hm, by rw [hst], hfl, hlast⟩

/-- C2 witness: a run over two batches, stopped by the flag after the
first item, checkpoints that item's record as the last (and only)
checkpoint. -/
theorem spec_C2_witness :
    ∃ cp, (runBatches envRun (fun n => decide (2 ≤ n))
        [["r/a.jpg", "r/b.jpg"], ["r/c.jpg"]] stRun 0 0).2.2.2.1.getLast? =
      some (Event.saved cp) ∧
      cp.records = (runBatches envRun (fun n => decide (2 ≤ n))
        [["r/a.jpg", "r/b.jpg"], ["r/c.jpg"]] stRun 0 0).1.records ∧
      cp.processedPaths = (runBatches envRun (fun n => decide (2 ≤ n))
        [["r/a.jpg", "r/b.jpg"], ["r/c.jpg"]] stRun 0 0).1.processedPaths := by
  refine (spec_C2 envRun (fun n => decide (2 ≤ n))
    [["r/a.jpg", "r/b.jpg"], ["r/c.jpg"]] stRun 0 0 ?_ ?_ ?_).2.1 (by decide)
  · intro b rs h
    simp only [envRun, svcCat] at h
    cases h
    simp
  · intro n
    rfl
  · intro n
    rfl

/-- The inner loop does not look at the clock or the write outcomes. -/
theorem processItems_clock_indep (env : Env) (cl : Nat → Nat) (wo : Nat → Bool)
    (flag : Nat → Bool) :
    ∀ (l : List (String × ClassResult)) (st : ProcState) (polls : Nat),
      processItems { env with clock := cl, writeOk := wo } flag l st polls =
        processItems env flag l st polls := by
  intro l
  induction l with
  | nil => intro st polls; rfl
  | cons hd tl ih =>
    intro st polls
    obtain ⟨p, res⟩ := hd
    rw [processItems, processItems]
    by_cases hf : flag polls
    · rw [if_pos hf, if_pos hf]
    · rw [if_neg hf, if_neg hf]
      exact ih _ _

/-- The outer loop's final state does not depend on the clock or on
which checkpoint writes succeed (a write failure inside the try never
interrupts or alters the run); only the directory-creation outcomes —
which are kept — can. -/
theorem runBatches_clock_indep (env : Env) (cl : Nat → Nat) (wo : Nat → Bool)
    (flag : Nat → Bool) :
    ∀ (batches : List (List String)) (st : ProcState) (polls writes : Nat),
      (runBatches { env with clock := cl, writeOk := wo } flag batches st polls
        writes).1 = (runBatches env flag batches st polls writes).1 := by
  intro batches
  induction batches with
  | nil => intro st polls writes; rfl
  | cons b rest ih =>
    intro st polls writes
    by_cases hf : flag polls
    · rw [runBatches, if_pos hf, runBatches, if_pos hf]
    · by_cases hmk : env.mkdirOk writes
      · rw [runBatches_cons { env with clock := cl, writeOk := wo } flag b rest
            st polls writes hf (saveProgress_ok _ _ writes hmk),
          runBatches_cons env flag b rest st polls writes hf
            (saveProgress_ok env _ writes hmk)]
        dsimp only
        rw [processItems_clock_indep env cl wo flag]
        exact ih _ _ _
      · rw [runBatches_cons_raise { env with clock := cl, writeOk := wo } flag
            b rest st polls writes hf (saveProgress_raise _ _ writes hmk),
          runBatches_cons_raise env flag b rest st polls writes hf
            (saveProgress_raise env _ writes hmk)]
        dsimp only
        rw [processItems_clock_indep env cl wo flag]

/-- C8 (code bug): the claim says the checkpoint save never raises for
any run state — a write failure is logged and the run continues.  In the
code `safe_makedirs(OUTPUT_DIR)` sits outside the try/except of
`_save_progress` (main.py line 148), so when the output directory cannot
be created (e.g. a regular file named `output` occupies the path) the
save raises and the exception escapes the batch loop uncaught: on a
world with three images the first batch's two records are built, yet no
event at all — no checkpoint, no logged failure, no export — is ever
emitted.  The parts of the claim that do hold are also stated: a write
failure inside the try is absorbed (`saveFailed` is logged and the
loop's final state equals the all-writes-succeed run's), load returns
`false` with the state untouched on a missing file and on an
unparseable checkpoint, a parseable checkpoint with an ill-typed field
returns `false` with the state partially mutated (the fields assigned
before the failing conversion stick), and a Resume over such a
checkpoint returns to the caller without processing. -/
theorem spec_C8 :
    saveProgress envNoMkdir stRun 0 = Except.error () ∧
    (processNew envNoMkdir (fun _ => false) stRun).1.records.length = 2 ∧
    (processNew envNoMkdir (fun _ => false) stRun).2 = [] ∧
    saveProgress { envRun with writeOk := fun _ => false } stRun 0 =
      Except.ok Event.saveFailed ∧
    (runBatches { envRun with writeOk := fun _ => false } (fun _ => false)
        [["r/a.jpg"]] stRun 0 0).1 =
      (runBatches envRun (fun _ => false) [["r/a.jpg"]] stRun 0 0).1 ∧
    (∀ st, loadProgress .noFile st = (false, st)) ∧
    (∀ st, loadProgress .badJson st = (false, st)) ∧
    (∀ st rf, loadProgress (.badBatchSize rf) st =
      (false, { st with rootFolder := rf })) ∧
    (∀ st rf bs, loadProgress (.badConfThreshold rf bs) st =
      (false, { st with rootFolder := rf, batchSize := bs })) ∧
    (∀ stops st rf, processResume envRun stops (.badBatchSize rf) st =
      ({ st with rootFolder := rf }, [])) := by
  refine ⟨rfl, by decide, by decide, rfl, ?_, fun st => rfl, fun st => rfl,
    fun st rf => rfl, fun st rf bs => rfl, fun stops st rf => rfl⟩
  exact runBatches_clock_indep envRun envRun.clock (fun _ => false)
    (fun _ => false) [["r/a.jpg"]] stRun 0 0

/-- The source path stored in a built record is the image path. -/
theorem recordFromPathAndResult_path (env : Env) (c : Rat) (p : String)
    (r : ClassResult) : (recordFromPathAndResult env c p r).path = p := rfl

/-- The batch classification step always returns one result per path
when the service honours its contract. -/
theorem classifyBatch_length (svc : Service) (b : List String)
    (hok : ServiceOk svc) : (classifyBatch svc b).length = b.length := by
  unfold classifyBatch
  cases h : svc.batchCall b with
  | ok rs => simp [hok b rs h]
  | error e => simp

/-- A coherent state has as many processed paths as records. -/
theorem coherent_card {st : ProcState} (h : Coherent st) :
    st.processedPaths.card = st.records.length := by
  rw [h.2, List.toFinset_card_of_nodup h.1, List.length_map]

/-- The inner loop preserves coherence when the incoming paths are fresh
and pairwise distinct, and only adds paths from its input. -/
theorem processItems_coherent (env : Env) (flag : Nat → Bool)
    (l : List (String × ClassResult)) (st : ProcState) (polls : Nat)
    (hco : Coherent st) (hnd : (l.map Prod.fst).Nodup)
    (hdis : ∀ p ∈ l.map Prod.fst, p ∉ st.processedPaths) :
    Coherent (processItems env flag l st polls).1 ∧
    (∀ p, p ∈ (processItems env flag l st polls).1.processedPaths →
      p ∈ st.processedPaths ∨ p ∈ l.map Prod.fst) := by
  obtain ⟨m, hm, hst, _, _, _⟩ := processItems_spec env flag l st polls
  rw [hst]
  obtain ⟨hnodup, hfin⟩ := hco
  have hpaths : ((l.take m).map (fun pr =>
      recordFromPathAndResult env st.confThreshold pr.1 pr.2)).map Record.path =
      (l.map Prod.fst).take m := by
    simp [List.map_map, Function.comp_def, recordFromPathAndResult_path,
      ← List.map_take]
  have hsub : ∀ p, p ∈ (l.map Prod.fst).take m → p ∈ l.map Prod.fst :=
    fun p hp => List.take_subset m _ hp
  constructor
  · constructor
    · show ((st.records ++ _).map Record.path).Nodup
      rw [List.map_append, hpaths, List.nodup_append]
      refine ⟨hnodup, hnd.sublist (List.take_sublist m _), ?_⟩
      intro a ha hb
      have : a ∈ st.processedPaths := by
        rw [hfin, List.mem_toFinset]
        exact ha
      exact hdis a (hsub a hb) this
    · show st.processedPaths ∪ ((l.take m).map Prod.fst).toFinset =
        ((st.records ++ (l.take m).map (fun pr =>
          recordFromPathAndResult env st.confThreshold pr.1 pr.2)).map
            Record.path).toFinset
      rw [List.map_append, hpaths, List.toFinset_append, hfin, List.map_take]
  · intro p hp
    rcases Finset.mem_union.mp hp with h | h
    · exact Or.inl h
    · refine Or.inr ?_
      rw [List.mem_toFinset] at h
      have hmem : p ∈ (l.map Prod.fst).take m := by
        rw [← List.map_take]
        exact h
      exact hsub p hmem

/-- The batch loop preserves coherence of the state and of every
persisted checkpoint. -/
theorem runBatches_coherent (env : Env) (flag : Nat → Bool)
    (hok : ServiceOk env.svc) :
    ∀ (batches : List (List String)) (st : ProcState) (polls writes : Nat),
      Coherent st → batches.flatten.Nodup →
      (∀ p ∈ batches.flatten, p ∉ st.processedPaths) →
      Coherent (runBatches env flag batches st polls writes).1 ∧
      (∀ cp, Event.saved cp ∈
          (runBatches env flag batches st polls writes).2.2.2.1 →
        (cp.records.map Record.path).Nodup ∧
        cp.processedPaths = (cp.records.map Record.path).toFinset) := by
  intro batches
  induction batches with
  | nil =>
    intro st polls writes hco _ _
    exact ⟨hco, by simp [runBatches]⟩
  | cons b rest ih =>
    intro st polls writes hco hnd hdis
    by_cases hf : flag polls
    · obtain ⟨h1, hwr, h2, hcr⟩ :=
        runBatches_flagged env flag (b :: rest) st polls writes hf
      rw [h1, h2]
      exact ⟨hco, by simp⟩
    · have hfst : (b.zip (classifyBatch env.svc b)).map Prod.fst = b :=
        List.map_fst_zip b _ (le_of_eq (classifyBatch_length env.svc b hok).symm)
      have hbnd : b.Nodup := (List.nodup_append.mp (by
        rw [← List.flatten_cons]; exact hnd)).1
      have hrestnd : rest.flatten.Nodup := (List.nodup_append.mp (by
        rw [← List.flatten_cons]; exact hnd)).2.1
      have hbdis : List.Disjoint b rest.flatten := (List.nodup_append.mp (by
        rw [← List.flatten_cons]; exact hnd)).2.2
      obtain ⟨hco', hgrow⟩ := processItems_coherent env flag
        (b.zip (classifyBatch env.svc b)) st (polls + 1) hco
        (by rw [hfst]; exact hbnd)
        (by rw [hfst]; intro p hp; exact hdis p (by
          rw [List.flatten_cons]; exact List.mem_append_left _ hp))
      have hdis' : ∀ p ∈ rest.flatten,
          p ∉ (processItems env flag (b.zip (classifyBatch env.svc b)) st
            (polls + 1)).1.processedPaths := by
        intro p hp hmem
        rcases hgrow p hmem with h | h
        · exact hdis p (by
            rw [List.flatten_cons]; exact List.mem_append_right _ hp) h
        · rw [hfst] at h
          exact hbdis h hp
      obtain ⟨hout, hsaves⟩ := ih
        (processItems env flag (b.zip (classifyBatch env.svc b)) st (polls + 1)).1
        (processItems env flag (b.zip (classifyBatch env.svc b)) st (polls + 1)).2
        (writes + 1) hco' hrestnd hdis'
      cases hsv : saveProgress env (processItems env flag
          (b.zip (classifyBatch env.svc b)) st (polls + 1)).1 writes with
      | error e =>
        cases e
        rw [runBatches_cons_raise env flag b rest st polls writes hf hsv]
        dsimp only
        exact ⟨hco', fun cp hcp => absurd hcp (by simp)⟩
      | ok ev =>
        rw [runBatches_cons env flag b rest st polls writes hf hsv]
        dsimp only
        refine ⟨hout, ?_⟩
        intro cp hcp
        rcases List.mem_cons.mp hcp with hhd | hmem
        · rw [← hhd] at hsv
          by_cases hmk2 : env.mkdirOk writes
          · rw [saveProgress_ok env _ writes hmk2] at hsv
            by_cases hw2 : env.writeOk writes
            · rw [if_pos hw2] at hsv
              have hcpv : cp = mkPayload (processItems env flag
                  (b.zip (classifyBatch env.svc b)) st (polls + 1)).1
                  (env.clock writes) :=
                ((Event.saved.injEq _ _).mp ((Except.ok.injEq _ _).mp hsv)).symm
              rw [hcpv]
              exact ⟨hco'.1, hco'.2⟩
            · rw [if_neg hw2] at hsv
              exact absurd ((Except.ok.injEq _ _).mp hsv) (by simp)
          · rw [saveProgress_raise env _ writes hmk2] at hsv
            exact absurd hsv (by simp)
        · exact hsaves cp hmem

/-- C4: one loop step appends the record and inserts its path together,
preserving the 1:1 correspondence; consequently — starting from a
coherent state, over pairwise distinct unprocessed paths — the state
after the loop and every persisted checkpoint satisfy: the processed
set is exactly the set of the records' source paths and has the same
cardinality as the record list. -/
theorem spec_C4 (env : Env) (flag : Nat → Bool) (batches : List (List String))
    (st : ProcState) (polls writes : Nat) (hok : ServiceOk env.svc)
    (hco : Coherent st) (hnd : batches.flatten.Nodup)
    (hdis : ∀ p ∈ batches.flatten, p ∉ st.processedPaths) :
    (∀ (p : String) (res : ClassResult) (st' : ProcState),
      Coherent st' → p ∉ st'.processedPaths →
      Coherent { st' with
        records := st'.records ++
          [recordFromPathAndResult env st'.confThreshold p res],
        processedPaths := insert p st'.processedPaths }) ∧
    Coherent (runBatches env flag batches st polls writes).1 ∧
    (runBatches env flag batches st polls writes).1.processedPaths.card =
      (runBatches env flag batches st polls writes).1.records.length ∧
    (∀ cp, Event.saved cp ∈
        (runBatches env flag batches st polls writes).2.2.2.1 →
      (cp.records.map Record.path).Nodup ∧
      cp.processedPaths = (cp.records.map Record.path).toFinset ∧
      cp.processedPaths.card = cp.records.length) := by
  obtain ⟨hout, hsaves⟩ :=
    runBatches_coherent env flag hok batches st polls writes hco hnd hdis
  refine ⟨?_, hout, coherent_card hout, ?_⟩
  · intro p res st' h hp
    obtain ⟨hnodup, hfin⟩ := h
    constructor
    · show ((st'.records ++ _).map Record.path).Nodup
      rw [List.map_append, List.nodup_append]
      refine ⟨hnodup, by simp, ?_⟩
      intro a ha hb
      simp only [List.map_cons, List.map_nil, List.mem_singleton,
        recordFromPathAndResult_path] at hb
      subst hb
      exact hp (by rw [hfin, List.mem_toFinset]; exact ha)
    · show _ = ((st'.records ++ _).map Record.path).toFinset
      rw [List.map_append, List.toFinset_append, hfin]
      simp [recordFromPathAndResult_path, Finset.insert_eq, Finset.union_comm]
  · intro cp hcp
    obtain ⟨h1, h2⟩ := hsaves cp hcp
    refine ⟨h1, h2, ?_⟩
    rw [h2, List.toFinset_card_of_nodup h1, List.length_map]

/-- C4 witness: a complete concrete run keeps the set and the list in
1:1 correspondence. -/
theorem spec_C4_witness :
    Coherent (runBatches envRun (fun _ => false) [["r/a.jpg", "r/b.jpg"]]
      stRun 0 0).1 ∧
    (runBatches envRun (fun _ => false) [["r/a.jpg", "r/b.jpg"]]
      stRun 0 0).1.processedPaths.card =
    (runBatches envRun (fun _ => false) [["r/a.jpg", "r/b.jpg"]]
      stRun 0 0).1.records.length := by
  have h := spec_C4 envRun (fun _ => false) [["r/a.jpg", "r/b.jpg"]] stRun 0 0
    (fun b rs hb => by
      simp only [envRun, svcCat] at hb
      cases hb
      simp)
    ⟨by decide, by decide⟩ (by decide) (by decide)
  exact ⟨h.2.1, h.2.2.1⟩

/-- C10 (counterexample): a Resume on a processor whose stop flag is set
does exist that runs no finalization at all — when the loaded checkpoint
and the rescan total zero work items, `process_resume` returns before
the batch loop, emitting no export and no final checkpoint save. -/
theorem spec_C10_counterexample :
    stStopped.stopFlag = true ∧
    (processResume trivEnv (fun _ => false) (.ok cpEmpty) stStopped).2 = [] ∧
    ∀ rows, Event.exported rows ∉
      (processResume trivEnv (fun _ => false) (.ok cpEmpty) stStopped).2 := by
  have hT : (processResume trivEnv (fun _ => false) (.ok cpEmpty) stStopped).2 =
      [] := by decide
  refine ⟨rfl, hT, fun rows h => ?_⟩
  rw [hT] at h
  exact absurd h (List.not_mem_nil _)

/-- C10 (amended): provided the checkpoint loads, the total work count
(remaining scan plus already-processed) is nonzero and the output
directory is creatable (so the final save returns instead of raising), a
Resume on a processor whose stop flag is already set submits no batch
and appends no record — the loop exits at its first poll — yet
finalization still runs: the trace is exactly the export of the loaded
records followed by the final checkpoint save's event; the flag itself
is never cleared by Resume (the resulting state still carries it), and
only `reset_state` — called by New-run alone — resets it to false. -/
theorem spec_C10 (env : Env) (stops : Nat → Bool) (cp : Payload)
    (st0 : ProcState) (hstop : st0.stopFlag = true)
    (hmodel : st0.modelLoaded = true ∨ env.modelOk = true)
    (htotal : (scanAllImages (env.walkOf cp.rootFolder) cp.processedPaths).length
      + cp.processedPaths.card ≠ 0)
    (hmk : env.mkdirOk 0 = true) :
    (processResume env stops (.ok cp) st0).1 =
      { st0 with rootFolder := cp.rootFolder, batchSize := cp.batchSize,
                 confThreshold := cp.confThreshold, records := cp.records,
                 processedPaths := cp.processedPaths, modelLoaded := true } ∧
    (processResume env stops (.ok cp) st0).1.records = cp.records ∧
    (processResume env stops (.ok cp) st0).1.stopFlag = true ∧
    (∃ ev, saveProgress env (processResume env stops (.ok cp) st0).1 0 =
        Except.ok ev ∧
      (processResume env stops (.ok cp) st0).2 =
        [Event.exported (cp.records.map exportRow), ev]) ∧
    (resetState st0).stopFlag = false := by
  have hgate : (({ st0 with rootFolder := cp.rootFolder,
                            batchSize := cp.batchSize,
                            confThreshold := cp.confThreshold,
                            records := cp.records,
                            processedPaths := cp.processedPaths } :
        ProcState).modelLoaded || env.modelOk) = true := by
    rcases hmodel with h | h <;> simp [h]
  have hflag0 : (fun n => st0.stopFlag || stops n) 0 = true := by
    simp [hstop]
  have hres : processResume env stops (.ok cp) st0 =
      ({ st0 with rootFolder := cp.rootFolder, batchSize := cp.batchSize,
                  confThreshold := cp.confThreshold, records := cp.records,
                  processedPaths := cp.processedPaths, modelLoaded := true },
        [Event.exported (cp.records.map exportRow),
         if env.writeOk 0 then
           Event.saved (mkPayload
             { st0 with rootFolder := cp.rootFolder, batchSize := cp.batchSize,
                        confThreshold := cp.confThreshold,
                        records := cp.records,
                        processedPaths := cp.processedPaths,
                        modelLoaded := true } (env.clock 0))
         else Event.saveFailed]) := by
    rw [processResume]
    dsimp only [loadProgress]
    rw [if_pos hgate, if_neg htotal]
    obtain ⟨h1, h3, h2, hcr⟩ := runBatches_flagged env
      (fun n => st0.stopFlag || stops n)
      (chunks cp.batchSize (scanAllImages (env.walkOf cp.rootFolder)
        cp.processedPaths))
      { st0 with rootFolder := cp.rootFolder, batchSize := cp.batchSize,
                 confThreshold := cp.confThreshold, records := cp.records,
                 processedPaths := cp.processedPaths, modelLoaded := true } 0 0
      hflag0
    rw [hcr, if_neg (by simp)]
    rw [h1, h2, h3, List.nil_append, finalizeProcessing_ok env _ 0 hmk]
  refine ⟨?_, ?_, ?_, ?_, rfl⟩
  · rw [hres]
  · rw [hres]
  · rw [hres, hstop]
  · refine ⟨(if env.writeOk 0 then
        Event.saved (mkPayload
          { st0 with rootFolder := cp.rootFolder, batchSize := cp.batchSize,
                     confThreshold := cp.confThreshold, records := cp.records,
                     processedPaths := cp.processedPaths,
                     modelLoaded := true } (env.clock 0))
      else Event.saveFailed), ?_, ?_⟩
    · rw [hres]
      exact saveProgress_ok env _ 0 hmk
    · rw [hres]

/-- C10 witness: with the flag set and a loadable checkpoint holding one
record over a non-empty folder, Resume appends nothing, keeps the flag,
and still exports and saves. -/
theorem spec_C10_witness :
    (processResume envRun (fun _ => false) (.ok cpOne) stStopped).1.records =
      cpOne.records ∧
    (processResume envRun (fun _ => false) (.ok cpOne) stStopped).1.stopFlag =
      true ∧
    ∃ ev, saveProgress envRun
        (processResume envRun (fun _ => false) (.ok cpOne) stStopped).1 0 =
        Except.ok ev ∧
      (processResume envRun (fun _ => false) (.ok cpOne) stStopped).2 =
        [Event.exported (cpOne.records.map exportRow), ev] := by
  have h := spec_C10 envRun (fun _ => false) cpOne stStopped rfl
    (Or.inl rfl) (by decide) rfl
  exact ⟨h.2.1, h.2.2.1, h.2.2.2.1⟩

/-- An uninterrupted New-run builds one record per scanned path, in scan
order. -/
theorem processNew_all (env : Env) (st0 : ProcState) (f : String → ClassResult)
    (hpw : Pointwise env.svc f) (hbs : 0 < st0.batchSize)
    (hmodel : env.modelOk = true) (hmk : ∀ n, env.mkdirOk n = true) :
    (processNew env (fun _ => false) st0).1.records =
      (scanAllImages (env.walkOf st0.rootFolder) ∅).map
        (fun p => recordFromPathAndResult env st0.confThreshold p (f p)) := by
  rw [processNew]
  simp only [resetState, hmodel, Bool.not_true, Bool.false_eq_true, if_false]
  by_cases hempty :
      (scanAllImages (env.walkOf st0.rootFolder) (∅ : Finset String)).isEmpty
  · rw [if_pos hempty]
    rw [List.isEmpty_iff] at hempty
    rw [hempty]
    rfl
  · rw [if_neg hempty]
    rw [runBatches_no_crash env (fun _ => false) hmk, if_neg (by simp)]
    rw [runBatches_all env (fun _ => false) f hpw (fun _ => rfl) hmk]
    rw [chunks_flatten st0.batchSize hbs]
    rfl

/-- Every checkpoint of a New-run under a monotone stop flag holds the
records and paths of exactly an initial segment of the scan, together
with the run configuration; checkpoints only exist when the scan was
non-empty. -/
theorem processNew_saved (env : Env) (stops : Nat → Bool) (st0 : ProcState)
    (f : String → ClassResult) (hpw : Pointwise env.svc f)
    (hmono : MonotoneFlag stops) (hbs : 0 < st0.batchSize)
    (hmodel : env.modelOk = true) (hmk : ∀ n, env.mkdirOk n = true) :
    ∀ cp, Event.saved cp ∈ (processNew env stops st0).2 →
      ∃ k, k ≤ (scanAllImages (env.walkOf st0.rootFolder) ∅).length ∧
        cp.records = ((scanAllImages (env.walkOf st0.rootFolder) ∅).take k).map
          (fun p => recordFromPathAndResult env st0.confThreshold p (f p)) ∧
        cp.processedPaths =
          ((scanAllImages (env.walkOf st0.rootFolder) ∅).take k).toFinset ∧
        cp.rootFolder = st0.rootFolder ∧ cp.batchSize = st0.batchSize ∧
        cp.confThreshold = st0.confThreshold := by
  intro cp hcp
  rw [processNew] at hcp
  simp only [resetState, hmodel, Bool.not_true, Bool.false_eq_true, if_false]
    at hcp
  by_cases hempty :
      (scanAllImages (env.walkOf st0.rootFolder) (∅ : Finset String)).isEmpty
  · rw [if_pos hempty] at hcp
    exact absurd hcp (List.not_mem_nil _)
  · rw [if_neg hempty] at hcp
    rw [runBatches_no_crash env stops hmk, if_neg (by simp)] at hcp
    rw [finalizeProcessing_ok env _ _ (hmk _)] at hcp
    have hflat : (chunks st0.batchSize
        (scanAllImages (env.walkOf st0.rootFolder) ∅)).flatten =
        scanAllImages (env.walkOf st0.rootFolder) ∅ :=
      chunks_flatten st0.batchSize hbs _
    have hmm := runBatches_mono env stops f hpw hmono hmk
      (chunks st0.batchSize (scanAllImages (env.walkOf st0.rootFolder) ∅))
      { st0 with stopFlag := false, records := [], processedPaths := ∅,
                 modelLoaded := true } 0 0
    rcases List.mem_append.mp hcp with hloop | hfin
    · obtain ⟨k, hk, hrec, hproc, hrf, hbs', hct⟩ := hmm.2 cp hloop
      rw [hflat] at hk hrec hproc
      refine ⟨k, hk, ?_, ?_, hrf, hbs', hct⟩
      · rw [hrec]; simp
      · rw [hproc]; simp
    · rcases List.mem_cons.mp hfin with hex | hsv
      · exact absurd hex (by simp)
      · rcases List.mem_cons.mp hsv with hsave | habs
        · split_ifs at hsave with hwok
          obtain ⟨k, hk, hout⟩ := hmm.1
          rw [hflat] at hk hout
          refine ⟨k, hk, ?_, ?_, ?_, ?_, ?_⟩ <;>
            rw [(Event.saved.injEq _ _).mp hsave, hout] <;> simp [mkPayload]
        · exact absurd habs (List.not_mem_nil _)

/-- A Resume-run with the flag never set appends one record for every
path of the rescan (excluding the restored processed paths) to the
restored records; with zero total work it returns the restored records
unchanged. -/
theorem processResume_records (env : Env) (stops' : Nat → Bool) (cp : Payload)
    (st1 : ProcState) (f : String → ClassResult) (hpw : Pointwise env.svc f)
    (hmodel : env.modelOk = true) (hbs : 0 < cp.batchSize)
    (hstop1 : st1.stopFlag = false) (hstops' : ∀ n, stops' n = false)
    (hmk : ∀ n, env.mkdirOk n = true) :
    (processResume env stops' (.ok cp) st1).1.records =
      cp.records ++
        (scanAllImages (env.walkOf cp.rootFolder) cp.processedPaths).map
          (fun p => recordFromPathAndResult env cp.confThreshold p (f p)) := by
  rw [processResume]
  dsimp only [loadProgress]
  rw [if_pos (by simp [hmodel])]
  by_cases htot : (scanAllImages (env.walkOf cp.rootFolder)
      cp.processedPaths).length + cp.processedPaths.card = 0
  · rw [if_pos htot]
    have hrem : scanAllImages (env.walkOf cp.rootFolder) cp.processedPaths = [] :=
      List.eq_nil_of_length_eq_zero (by omega)
    rw [hrem]
    simp
  · rw [if_neg htot]
    have hflagR : ∀ n, (fun n => st1.stopFlag || stops' n) n = false := by
      intro n
      simp [hstop1, hstops']
    rw [runBatches_no_crash env (fun n => st1.stopFlag || stops' n) hmk,
      if_neg (by simp)]
    rw [runBatches_all env (fun n => st1.stopFlag || stops' n) f hpw hflagR hmk]
    rw [chunks_flatten cp.batchSize hbs]

/-- C3: every checkpoint a (possibly cancelled) New-run persisted can be
resumed — with the flag never set again, the same filesystem, the model
loading, the output directory creatable (so no save raises), and a
deterministic per-path service — and the resumed run's
final records equal (as a list, hence as a set) the records of the same
configuration run to completion without interruption. -/
theorem spec_C3 (env : Env) (stops stops' : Nat → Bool) (st0 st1 : ProcState)
    (f : String → ClassResult) (hpw : Pointwise env.svc f)
    (hmono : MonotoneFlag stops)
    (hnd : (scanAllImages (env.walkOf st0.rootFolder) ∅).Nodup)
    (hbs : 0 < st0.batchSize) (hmodel : env.modelOk = true)
    (hstop1 : st1.stopFlag = false) (hstops' : ∀ n, stops' n = false)
    (hmk : ∀ n, env.mkdirOk n = true) :
    ∀ cp, Event.saved cp ∈ (processNew env stops st0).2 →
      (processResume env stops' (.ok cp) st1).1.records =
        (processNew env (fun _ => false) st0).1.records := by
  intro cp hcp
  obtain ⟨k, hk, hrec, hproc, hrf, hbs', hct⟩ :=
    processNew_saved env stops st0 f hpw hmono hbs hmodel hmk cp hcp
  rw [processResume_records env stops' cp st1 f hpw hmodel
    (by rw [hbs']; exact hbs) hstop1 hstops' hmk]
  rw [processNew_all env st0 f hpw hbs hmodel hmk]
  rw [hrec, hproc, hrf, hct]
  rw [scanAllImages_eq_filter (env.walkOf st0.rootFolder)
    ((scanAllImages (env.walkOf st0.rootFolder) ∅).take k).toFinset]
  rw [filter_take_eq_drop hnd k]
  rw [← List.map_append, List.take_append_drop]

/-- C3 witness: a New-run over three images stopped after the first
image checkpoints that image; resuming from that checkpoint with the
flag clear rebuilds exactly the records of the uninterrupted run. -/
theorem spec_C3_witness :
    Event.saved ⟨"r", 2, 1, 0, [recA], {"r/a.jpg"}⟩ ∈
      (processNew envRun (fun n => decide (2 ≤ n)) stRun).2 ∧
    (processResume envRun (fun _ => false)
        (.ok ⟨"r", 2, 1, 0, [recA], {"r/a.jpg"}⟩) stRun).1.records =
      (processNew envRun (fun _ => false) stRun).1.records := by
  have hpw : Pointwise envRun.svc fCat := by
    intro b
    show classifyBatch svcCat b = b.map fCat
    rw [classifyBatch]
    show (b.map fun _ => RawItem.dict catResult).map normalizeItem = _
    rw [List.map_map]
    rfl
  have hmono : MonotoneFlag (fun n => decide (2 ≤ n)) := by
    intro i j hij h
    simp only [decide_eq_true_eq] at h ⊢
    omega
  have hmem : Event.saved ⟨"r", 2, 1, 0, [recA], {"r/a.jpg"}⟩ ∈
      (processNew envRun (fun n => decide (2 ≤ n)) stRun).2 := by decide
  exact ⟨hmem, spec_C3 envRun (fun n => decide (2 ≤ n)) (fun _ => false)
    stRun stRun fCat hpw hmono (by decide) (by decide) rfl rfl
    (fun _ => rfl) (fun _ => rfl) _ hmem⟩

end Anidf
